import Mathlib

/-!
Verification development for the MARP document pipeline:
the token-aware semantic chunker (services/indexing/app/pipeline.py)
and the hybrid retrieval engine (services/retrieval/app/retriever.py).

The tokenizer (tiktoken cl100k_base) is an external collaborator; it is
modelled as an abstract encode/decode pair (`Enc`).  All chunker logic,
the regex splitting, the overlap/flush state machine, score fusion,
normalization and ranking are embedded directly from the source.
-/

namespace MarpSpec

/-- Abstract tokenizer adapter: `tiktoken.get_encoding("cl100k_base")`
exposes `encode : str -> token ids` and `decode : token ids -> str`. -/
structure Enc where
  encode : String → List Nat
  decode : List Nat → String

/-- A concrete instance of the tokenizer interface used for evaluating the
chunker on concrete inputs: every character is one token (its code point). -/
def charEnc : Enc where
  encode s := s.data.map Char.toNat
  decode l := String.mk (l.map Char.ofNat)

/-- Model of the `tok_count` helper from `chunk_text_semantic`: `len(enc.encode(s))`. -/
def tokCount (enc : Enc) (s : String) : Nat :=
  (enc.encode s).length

/-- Python `\s` / `str.strip` whitespace over the ASCII range:
space, tab, newline, carriage return, vertical tab, form feed. -/
def isPySpace (c : Char) : Bool :=
  c = ' ' || c = '\t' || c = '\n' || c = '\r' || c = '\x0b' || c = '\x0c'

/-- Python `\d` over the ASCII range. -/
def isDigitChar (c : Char) : Bool :=
  '0' ≤ c && c ≤ '9'

/-- Python `str.strip()`: drop leading and trailing whitespace. -/
def pyStrip (s : String) : String :=
  String.mk (((s.data.dropWhile isPySpace).reverse.dropWhile isPySpace).reverse)

/-- Python truthiness test `not q or not q.strip()` on a string:
true exactly when the string is empty or whitespace-only. -/
def pyBlank (s : String) : Bool :=
  s.data.all isPySpace

/-- Python `opt or default` on an optional string: `None` and the empty
string are both falsy and give the default. -/
def pyOr (o : Option String) (d : String) : String :=
  match o with
  | some s => if s = "" then d else s
  | none => d

/-! ### Page-marker split: `re.split(r"--- page (\d+) ---", text)` -/

/-- If the character list starts with a page marker `--- page <digits> ---`,
return the digit group; the full marker has length `13 + digits.length`. -/
def markerAt (cs : List Char) : Option (List Char) :=
  if cs.take 9 = "--- page ".data then
    let rest := cs.drop 9
    let digits := rest.takeWhile isDigitChar
    if digits = [] then none
    else if (rest.drop digits.length).take 4 = " ---".data then some digits
    else none
  else none

/-- Left-to-right non-overlapping split on page markers, keeping the digit
capture groups, exactly like `re.split` with one capture group: the result
alternates `text, digits, text, digits, ..., text`.  The recursion is
structural on a fuel argument so that it computes by kernel reduction;
every step consumes at least one character while spending one unit of
fuel, so starting from `cs.length + 1` the zero-fuel fallback is
unreachable. -/
def pageSplitAux : (fuel : Nat) → (cs : List Char) → (acc : List Char) → List String
  | 0, _, acc => [String.mk acc.reverse]
  | _ + 1, [], acc => [String.mk acc.reverse]
  | fuel + 1, c :: cs, acc =>
    match markerAt (c :: cs) with
    | some digits =>
      String.mk acc.reverse :: String.mk digits ::
        pageSplitAux fuel (cs.drop (12 + digits.length)) []
    | none => pageSplitAux fuel cs (c :: acc)

/-- Model of `re.split(r"--- page (\d+) ---", text)`. -/
def pageSplit (text : String) : List String :=
  pageSplitAux (text.data.length + 1) text.data []

/-- Python `int(s)` on a digit string. -/
def digitsToNat (cs : List Char) : Nat :=
  cs.foldl (fun n c => n * 10 + (c.toNat - '0'.toNat)) 0

/-- Python `int(s)`, succeeding exactly on non-empty all-digit strings
(the only shape the split can produce for the capture group). -/
def parseNatDigits? (s : String) : Option Nat :=
  if s.data ≠ [] ∧ s.data.all isDigitChar then some (digitsToNat s.data) else none

/-- The `while i + 1 < len(parts)` loop of `chunk_text_semantic`: consume
(digits, page text) pairs; a failed parse falls back to previous page + 1
(or 1 when no page has been seen), the documented recovery path. -/
def buildPages : List String → List (Nat × String) → List (Nat × String)
  | numStr :: pageText :: rest, acc =>
    let pageNum :=
      match parseNatDigits? numStr with
      | some n => n
      | none =>
        match acc.getLast? with
        | some p => p.1 + 1
        | none => 1
    buildPages rest (acc ++ [(pageNum, pageText)])
  | _, acc => acc

/-- Pages of a document, from `chunk_text_semantic` lines 125-148: text
before the first marker (if non-blank) becomes page 1. -/
def pagesOf (text : String) : List (Nat × String) :=
  match pageSplit text with
  | [] => []
  | p0 :: rest =>
    buildPages rest (if pyStrip p0 = "" then [] else [(1, p0)])

/-! ### Paragraph split: `re.split(r"\n\s*\n+", page_content)` -/

/-- Split on separators matching `\n\s*\n+`: a maximal whitespace run that
starts with a newline and contains at least two newlines, the match ending
at the last newline of the run (greedy with backtracking).  Fueled like
`pageSplitAux`; the zero-fuel fallback is unreachable. -/
def paraSplitAux : (fuel : Nat) → (cs : List Char) → (acc : List Char) → List String
  | 0, _, acc => [String.mk acc.reverse]
  | _ + 1, [], acc => [String.mk acc.reverse]
  | fuel + 1, c :: cs, acc =>
    if c = '\n' then
      let run := (c :: cs).takeWhile isPySpace
      if 2 ≤ (run.filter (fun x => x = '\n')).length then
        let trail := (run.reverse.takeWhile (fun x => ¬ (x = '\n'))).length
        let sepLen := run.length - trail
        String.mk acc.reverse :: paraSplitAux fuel (cs.drop (sepLen - 1)) []
      else paraSplitAux fuel cs (c :: acc)
    else paraSplitAux fuel cs (c :: acc)

/-- Model of `re.split(r"\n\s*\n+", pageContent)`. -/
def paraSplit (s : String) : List String :=
  paraSplitAux (s.data.length + 1) s.data []

/-! ### Sentence split: `re.split(r'(?<=[.!?])\s+', para)` -/

/-- True when the character ends a sentence for the lookbehind `[.!?]`. -/
def isSentEnd (c : Char) : Bool :=
  c = '.' || c = '!' || c = '?'

/-- The lookbehind `(?<=[.!?])`: the head of the reversed accumulator is
the character just before the scan position. -/
def lookbehindSentEnd (acc : List Char) : Bool :=
  match acc with
  | p :: _ => isSentEnd p
  | [] => false

/-- Split at maximal whitespace runs preceded by `.`, `!` or `?`; the
accumulator holds the current part reversed, so its head is the character
just before the scan position (the lookbehind).  Fueled like
`pageSplitAux`; the zero-fuel fallback is unreachable. -/
def sentSplitAux : (fuel : Nat) → (cs : List Char) → (acc : List Char) → List String
  | 0, _, acc => [String.mk acc.reverse]
  | _ + 1, [], acc => [String.mk acc.reverse]
  | fuel + 1, c :: cs, acc =>
    if isPySpace c && lookbehindSentEnd acc then
      let ws := (c :: cs).takeWhile isPySpace
      String.mk acc.reverse :: sentSplitAux fuel (cs.drop (ws.length - 1)) []
    else sentSplitAux fuel cs (c :: acc)

/-- Model of `re.split(r'(?<=[.!?])\s+', para)`. -/
def sentSplit (s : String) : List String :=
  sentSplitAux (s.data.length + 1) s.data []

/-! ### The semantic chunker state machine (`chunk_text_semantic`) -/

/-- A chunk record as appended by `flush_chunk`.  `prefixTok` and
`contentTok` are ghost accounting fields: the number of tokens the chunker
counted for the prepended overlap prefix and for the content appended after
it; the source tracks their sum as `current_tokens`. -/
structure Chunk where
  chunkId : String
  text : String
  documentId : String
  title : Option String
  url : Option String
  page : Nat
  prefixTok : Nat
  contentTok : Nat
deriving DecidableEq, Inhabited

/-- Parameters of `chunk_text_semantic`, defaults from its signature. -/
structure ChunkCfg where
  enc : Enc
  docId : String
  title : Option String := none
  url : Option String := none
  maxTokens : Nat := 450
  overlapTokens : Nat := 50

/-- The mutable chunker state: emitted chunks, the id counter, the pending
overlap token buffer, the open chunk buffer and its token count, and the
current page.  `curPrefixTok`/`curContentTok` are the ghost split of
`currentTokens` into overlap-prefix tokens and content tokens. -/
structure ChunkState where
  chunks : List Chunk
  counter : Nat
  nextPrefixIds : List Nat
  currentChunk : String
  currentTokens : Nat
  currentPage : Option Nat
  curPrefixTok : Nat
  curContentTok : Nat
deriving DecidableEq

def initChunkState : ChunkState :=
  { chunks := [], counter := 1, nextPrefixIds := [], currentChunk := "",
    currentTokens := 0, currentPage := none, curPrefixTok := 0, curContentTok := 0 }

/-- Python `f"{n:04}"`: decimal, zero-padded to at least four digits. -/
def pad4 (n : Nat) : String :=
  let s := toString n
  if s.length < 4 then String.mk (List.replicate (4 - s.length) '0') ++ s else s

/-- Model of `f"{doc_id}-{counter:04}"`. -/
def mkChunkId (docId : String) (n : Nat) : String :=
  docId ++ "-" ++ pad4 n

/-- Model of `start_chunk_with_overlap_if_needed`: when the buffer is empty and an
overlap prefix is pending, decode it into the buffer and consume it. -/
def startChunk (cfg : ChunkCfg) (st : ChunkState) : ChunkState :=
  if st.currentTokens = 0 ∧ st.nextPrefixIds ≠ [] then
    { st with currentChunk := cfg.enc.decode st.nextPrefixIds,
              currentTokens := st.nextPrefixIds.length,
              curPrefixTok := st.nextPrefixIds.length,
              curContentTok := 0,
              nextPrefixIds := [] }
  else st

/-- Model of `flush_chunk`: emit the stripped buffer (if non-empty) as a chunk,
record the next overlap prefix as the last `overlap_tokens` token ids of
the emitted text, and reset the buffer.  Note the Python slice
`token_ids[-overlap_tokens:]` yields the WHOLE list when
`overlap_tokens == 0`. -/
def flushChunk (cfg : ChunkCfg) (st : ChunkState) : ChunkState :=
  let textOut := pyStrip st.currentChunk
  if textOut = "" then st
  else
    let tokenIds := cfg.enc.encode textOut
    let nextIds :=
      if cfg.overlapTokens < tokenIds.length then
        if cfg.overlapTokens = 0 then tokenIds
        else tokenIds.drop (tokenIds.length - cfg.overlapTokens)
      else tokenIds
    { chunks := st.chunks ++
        [{ chunkId := mkChunkId cfg.docId st.counter, text := textOut,
           documentId := cfg.docId, title := cfg.title, url := cfg.url,
           page := st.currentPage.getD 1,
           prefixTok := st.curPrefixTok, contentTok := st.curContentTok }],
      counter := st.counter + 1,
      nextPrefixIds := nextIds,
      currentChunk := "", currentTokens := 0,
      currentPage := st.currentPage,
      curPrefixTok := 0, curContentTok := 0 }

/-- The shared append step `current_chunk += (sep if current_chunk else "")
+ piece; current_tokens += tok`, preceded by the overlap-start call. -/
def appendPiece (cfg : ChunkCfg) (sep piece : String) (tok : Nat)
    (st : ChunkState) : ChunkState :=
  let st := startChunk cfg st
  let sep2 : String := if st.currentChunk ≠ "" then sep else ""
  { st with
    currentChunk := st.currentChunk ++ sep2 ++ piece,
    currentTokens := st.currentTokens + tok,
    curContentTok := st.curContentTok + tok }

/-- The `while i < len(sent_ids)` loop hard-splitting an oversized sentence
by raw token offsets.  The loop is fueled: the Python loop does not
terminate when `overlap_tokens ≥ max_tokens` (the overlap prefix alone can
fill the budget forever); running out of fuel returns the state unchanged
and is unreachable for the configurations considered here. -/
def hardSplitLoop (cfg : ChunkCfg) (sentIds : List Nat) :
    Nat → Nat → ChunkState → ChunkState
  | 0, _, st => st
  | fuel + 1, i, st =>
    if i < sentIds.length then
      let st := startChunk cfg st
      let room := cfg.maxTokens - st.currentTokens
      if room = 0 then
        hardSplitLoop cfg sentIds fuel i (flushChunk cfg st)
      else
        let tk := min room (sentIds.length - i)
        let piece := pyStrip (cfg.enc.decode ((sentIds.drop i).take tk))
        let sep2 : String := if st.currentChunk ≠ "" then " " else ""
        let st :=
          { st with
            currentChunk := st.currentChunk ++ sep2 ++ piece,
            currentTokens := st.currentTokens + tk,
            curContentTok := st.curContentTok + tk }
        let st := if cfg.maxTokens ≤ st.currentTokens then flushChunk cfg st else st
        hardSplitLoop cfg sentIds fuel (i + tk) st
    else st

/-- One sentence of the inner loop (pipeline.py lines 223-269).  In the
middle branch the source calls `start_chunk_with_overlap_if_needed` and
then immediately overwrites `current_chunk`/`current_tokens` with the bare
sentence, discarding the overlap prefix it just installed. -/
def processSent (cfg : ChunkCfg) (sentRaw : String) (st : ChunkState) : ChunkState :=
  let s := pyStrip sentRaw
  if s = "" then st
  else
    let stok := tokCount cfg.enc s
    if st.currentTokens + stok ≤ cfg.maxTokens then
      appendPiece cfg " " s stok st
    else if stok ≤ cfg.maxTokens then
      let st := flushChunk cfg st
      let st := startChunk cfg st
      { st with currentChunk := s, currentTokens := stok,
                curPrefixTok := 0, curContentTok := stok }
    else
      let sentIds := cfg.enc.encode s
      hardSplitLoop cfg sentIds (2 * sentIds.length + 2) 0 st

/-- One paragraph of the page loop (pipeline.py lines 207-269). -/
def processPara (cfg : ChunkCfg) (paraRaw : String) (st : ChunkState) : ChunkState :=
  let p := pyStrip paraRaw
  if p = "" then st
  else
    let ptok := tokCount cfg.enc p
    if st.currentTokens + ptok ≤ cfg.maxTokens then
      appendPiece cfg "\n\n" p ptok st
    else
      (sentSplit p).foldl (fun st s => processSent cfg s st) st

/-- One page of the main loop, ending with the forced page flush. -/
def processPage (cfg : ChunkCfg) (pg : Nat × String) (st : ChunkState) : ChunkState :=
  let st := { st with currentPage := some pg.1 }
  let st := (paraSplit pg.2).foldl (fun st para => processPara cfg para st) st
  flushChunk cfg st

/-- The ordered chunk sequence computed by `chunk_text_semantic`. -/
def chunkCore (cfg : ChunkCfg) (text : String) : List Chunk :=
  ((pagesOf text).foldl (fun st pg => processPage cfg pg st) initChunkState).chunks

/-- Model of `chunk_text_semantic` as actually callable: after building the chunks
the source unconditionally evaluates `chunks[0]` in a debug print, which
raises `IndexError` when no chunk was produced; `none` models that raised
exception, `some` the normal return. -/
def chunkTextSemantic (cfg : ChunkCfg) (text : String) : Option (List Chunk) :=
  let cs := chunkCore cfg text
  if cs = [] then none else some cs

/-- The overlap contract between adjacent chunks: the next chunk begins
with exactly `min(overlap_tokens, token_count(prev))` tokens drawn from the
tail of the previous chunk. -/
def overlapPrefixOk (enc : Enc) (overlap : Nat) (prev cur : Chunk) : Prop :=
  let prevIds := enc.encode prev.text
  let k := min overlap prevIds.length
  (enc.encode cur.text).take k = prevIds.drop (prevIds.length - k)

instance (enc : Enc) (overlap : Nat) (prev cur : Chunk) :
    Decidable (overlapPrefixOk enc overlap prev cur) := by
  unfold overlapPrefixOk; infer_instance

/-! ### Indexing orchestrator (`handle_document`, pipeline.py lines 29-69) -/

/-- The effects `handle_document` performs, in program order. -/
inductive IndexAction where
  | readText
  | chunkText
  | embed
  | store
  | logMeta
  | publishEvent
  | ack
  | nack
deriving DecidableEq

/-- Control flow of `handle_document`: read the text file, chunk, embed,
store, log, publish, ack; any exception leads to nack+requeue (modelled
here by a failing read, the only fallible step before the effects).
`artifactExists` records whether an output artifact for the document id is
already present; the source never consults any such state — there is no
existence check and no force-reindex flag. -/
def handleDocumentActions (readOk : Bool) (artifactExists : Bool) : List IndexAction :=
  if readOk then
    [IndexAction.readText, IndexAction.chunkText, IndexAction.embed,
     IndexAction.store, IndexAction.logMeta, IndexAction.publishEvent,
     IndexAction.ack]
  else
    [IndexAction.readText, IndexAction.nack]

/-! ### Hybrid retrieval (`Retriever.search`, retriever.py) -/

/-- Clamp to the unit interval: `max(0.0, min(1.0, x))`. -/
def clamp01 (x : ℚ) : ℚ :=
  max 0 (min 1 x)

/-- Chroma metadata record for one candidate (fields the search reads). -/
structure Meta where
  documentId : Option String
  chunkId : Option String
  page : Option Int
  title : Option String
  url : Option String
deriving DecidableEq, Inhabited

/-- The per-result `scores` dictionary. -/
structure RScores where
  semantic : Option ℚ
  bm25 : Option ℚ
  combined : Option ℚ
deriving DecidableEq, Inhabited

/-- A normalized result row.  `idx` is a ghost field recording the
position of the candidate in the semantic candidate list, used to state
ordering and stability. -/
structure Row where
  idx : Nat
  documentId : String
  chunkId : Option String
  page : Option Int
  title : Option String
  url : Option String
  snippet : String
  scores : RScores
deriving DecidableEq, Inhabited

/-- The semantic candidates as returned by the vector store: aligned
lists of snippets, metadata and cosine distances. -/
structure StoreResp where
  docs : List String
  metas : List Meta
  dists : List (Option ℚ)

/-- Semantic similarity of candidate `i` (retriever.py lines 212-219):
`sim = clamp(1 - dist/2, 0, 1)` when the distance is present, else null. -/
def semanticSim (dists : List (Option ℚ)) (i : Nat) : Option ℚ :=
  match dists.getD i none with
  | some d => some (clamp01 (1 - d / 2))
  | none => none

/-- One row of the pure-semantic result shape (retriever.py lines 222-238,
also the BM25-failure fallback at lines 263-277): `bm25` is null and
`combined` is the semantic similarity. -/
def mkSemanticRow (docs : List String) (metas : List Meta)
    (dists : List (Option ℚ)) (i : Nat) : Row :=
  let md := metas.getD i default
  let sim := semanticSim dists i
  { idx := i,
    documentId := pyOr md.documentId "unknown",
    chunkId := md.chunkId, page := md.page, title := md.title, url := md.url,
    snippet := docs.getD i "",
    scores := { semantic := sim, bm25 := none, combined := sim } }

def semanticRows (docs : List String) (metas : List Meta)
    (dists : List (Option ℚ)) : List Row :=
  (List.range docs.length).map (mkSemanticRow docs metas dists)

/-- Model of `min(bm25_scores_raw)` with the empty-list guard of lines 283-287. -/
def bmMin : List ℚ → ℚ
  | [] => 0
  | h :: t => t.foldl min h

/-- Model of `max(bm25_scores_raw)` with the empty-list guard of lines 283-287. -/
def bmMax : List ℚ → ℚ
  | [] => 0
  | h :: t => t.foldl max h

/-- Model of `_norm_bm25` (retriever.py lines 289-292): min-max normalization over
the candidate set, defined as 0.0 when all raw scores coincide. -/
def normBm (l : List ℚ) (x : ℚ) : ℚ :=
  if bmMax l = bmMin l then 0 else (x - bmMin l) / (bmMax l - bmMin l)

/-- One hybrid row (retriever.py lines 296-322): normalize the raw BM25
score, treat a missing semantic similarity as 0, fuse with weight `α` and
clamp the combination to the unit interval. -/
def mkHybridRow (α : ℚ) (docs : List String) (metas : List Meta)
    (dists : List (Option ℚ)) (bmRaw : List ℚ) (i : Nat) : Row :=
  let md := metas.getD i default
  let sem := semanticSim dists i
  let bm := normBm bmRaw (bmRaw.getD i 0)
  let semVal := sem.getD 0
  let combined := clamp01 (α * semVal + (1 - α) * bm)
  { idx := i,
    documentId := pyOr md.documentId "unknown",
    chunkId := md.chunkId, page := md.page, title := md.title, url := md.url,
    snippet := docs.getD i "",
    scores := { semantic := sem, bm25 := some bm, combined := some combined } }

def hybridRows (α : ℚ) (docs : List String) (metas : List Meta)
    (dists : List (Option ℚ)) (bmRaw : List ℚ) : List Row :=
  (List.range docs.length).map (mkHybridRow α docs metas dists bmRaw)

/-- Sort key of `rows.sort(key=..., reverse=True)`:
`(r.get("scores") or {}).get("combined") or 0.0`. -/
def rowKey (r : Row) : ℚ :=
  r.scores.combined.getD 0

/-- Stable descending insertion: a row is placed before the first strictly
smaller key and after every earlier row with an equal or larger key, so
rows with equal keys keep their original relative order — the behaviour of
the stable CPython `list.sort(..., reverse=True)`. -/
def insertRowDesc (x : Row) : List Row → List Row
  | [] => [x]
  | y :: ys => if rowKey y ≤ rowKey x then x :: y :: ys else y :: insertRowDesc x ys

/-- Stable sort descending by combined score. -/
def sortRowsDesc : List Row → List Row
  | [] => []
  | x :: xs => insertRowDesc x (sortRowsDesc xs)

/-- Model of `__init__` lines 44-49: `HYBRID_ALPHA` defaults to 0.6 and is clamped
to the unit interval. -/
def hybridAlpha (env : Option ℚ) : ℚ :=
  clamp01 (env.getD (6 / 10))

/-- Model of `Retriever.search`: the empty-query guard, the store query, and the
mode dispatch (pure semantic; unknown modes fall back to hybrid; hybrid
with BM25 failure falls back to the semantic row shape).  `bm25Raw` is the
output of the external `BM25Okapi` scorer over the candidate snippets, or
`none` when it raised.  The second component counts vector-store queries
(and hence embedder invocations) performed. -/
def searchModel (α : ℚ) (q : String) (topK : Nat) (mode : String)
    (store : StoreResp) (bm25Raw : Option (List ℚ)) :
    Except String (List Row) × Nat :=
  if pyBlank q then (Except.error "Empty query", 0)
  else if store.docs = [] then (Except.ok [], 1)
  else if mode = "semantic" then
    (Except.ok ((semanticRows store.docs store.metas store.dists).take topK), 1)
  else
    match bm25Raw with
    | none =>
      (Except.ok ((semanticRows store.docs store.metas store.dists).take topK), 1)
    | some raw =>
      (Except.ok
        ((sortRowsDesc (hybridRows α store.docs store.metas store.dists raw)).take topK), 1)

/-! ### Concrete instances used to evaluate the model -/

/-- Chunker at the default parameters (`max_tokens=450`, `overlap_tokens=50`)
over the character-level tokenizer instance. -/
def cfgDemo : ChunkCfg :=
  { enc := charEnc, docId := "doc" }

/-- A small-budget chunker configuration (`max_tokens=5`, `overlap_tokens=2`)
over the character-level tokenizer instance. -/
def cfgSmall : ChunkCfg :=
  { enc := charEnc, docId := "d", maxTokens := 5, overlapTokens := 2 }

/-! ## Invariants of the chunker state machine -/

/-- Token accounting invariant: the running token count is the prefix plus
content ghost counts, the open content stays within the budget, and every
emitted chunk's content stayed within the budget. -/
def TokOk (maxT : Nat) (st : ChunkState) : Prop :=
  st.currentTokens = st.curPrefixTok + st.curContentTok ∧
  st.curContentTok ≤ maxT ∧
  ∀ c ∈ st.chunks, c.contentTok ≤ maxT

/-- Chunk-id invariant: the counter is one past the number of emitted
chunks, and chunk ids are `doc_id ++ "-" ++ zero-padded position`. -/
def IdsOk (docId : String) (st : ChunkState) : Prop :=
  st.counter = st.chunks.length + 1 ∧
  st.chunks.map Chunk.chunkId =
    (List.range st.chunks.length).map (fun i => mkChunkId docId (i + 1))

/-- The combined invariant preserved by every chunker transition. -/
def ChunkInv (cfg : ChunkCfg) (st : ChunkState) : Prop :=
  TokOk cfg.maxTokens st ∧ IdsOk cfg.docId st

/-- Target ordering of the ranked hybrid result list: strictly descending
combined score, with ties broken by the original semantic-candidate
position (the stable-sort guarantee). -/
def RowLex (a b : Row) : Prop :=
  rowKey b < rowKey a ∨ (rowKey a = rowKey b ∧ a.idx < b.idx)

/-! ## Preservation lemmas -/

theorem foldl_preserve {α σ : Type _} (P : σ → Prop) (g : α → σ → σ)
    (hg : ∀ x st, P st → P (g x st)) :
    ∀ (l : List α) (st : σ), P st → P (l.foldl (fun st x => g x st) st)
  | [], _, h => h
  | x :: l, st, h => foldl_preserve P g hg l (g x st) (hg x st h)

theorem inv_startChunk (cfg : ChunkCfg) {st : ChunkState}
    (h : ChunkInv cfg st) : ChunkInv cfg (startChunk cfg st) := by
  obtain ⟨⟨h1, h2, h3⟩, hid⟩ := h
  unfold startChunk
  split
  · exact ⟨⟨rfl, Nat.zero_le _, h3⟩, hid⟩
  · exact ⟨⟨h1, h2, h3⟩, hid⟩

theorem inv_flushChunk (cfg : ChunkCfg) {st : ChunkState}
    (h : ChunkInv cfg st) : ChunkInv cfg (flushChunk cfg st) := by
  obtain ⟨⟨h1, h2, h3⟩, hc, hm⟩ := h
  unfold flushChunk
  dsimp only
  split
  · exact ⟨⟨h1, h2, h3⟩, hc, hm⟩
  · refine ⟨⟨rfl, Nat.zero_le _, ?_⟩, ?_, ?_⟩
    · intro c hcm
      rcases List.mem_append.mp hcm with hcm | hcm
      · exact h3 c hcm
      · rcases List.mem_singleton.mp hcm with rfl
        exact h2
    · dsimp only
      rw [List.length_append, List.length_singleton]
      omega
    · dsimp only
      rw [List.map_append, List.length_append, List.length_singleton,
          List.range_succ, List.map_append, hm]
      simp only [List.map_cons, List.map_nil]
      rw [hc]

theorem inv_appendPiece (cfg : ChunkCfg) (sep piece : String) (tok : Nat)
    {st : ChunkState} (h : ChunkInv cfg st)
    (hb : st.currentTokens + tok ≤ cfg.maxTokens) :
    ChunkInv cfg (appendPiece cfg sep piece tok st) := by
  obtain ⟨⟨h1, h2, h3⟩, hid⟩ := h
  unfold appendPiece startChunk
  dsimp only
  split
  next hcond =>
    refine ⟨⟨?_, ?_, h3⟩, hid⟩ <;> dsimp only <;> omega
  next =>
    refine ⟨⟨?_, ?_, h3⟩, hid⟩ <;> dsimp only <;> omega

theorem inv_hardSplitLoop (cfg : ChunkCfg) (sentIds : List Nat) :
    ∀ (fuel i : Nat) {st : ChunkState}, ChunkInv cfg st →
      ChunkInv cfg (hardSplitLoop cfg sentIds fuel i st) := by
  intro fuel
  induction fuel with
  | zero => intro i st h; simpa only [hardSplitLoop] using h
  | succ f ih =>
    intro i st h
    rw [hardSplitLoop]
    split
    · dsimp only
      split
      · exact ih i (inv_flushChunk cfg (inv_startChunk cfg h))
      next hroom =>
        have h1 := inv_startChunk cfg h
        obtain ⟨⟨e1, e2, e3⟩, eid⟩ := h1
        have htk : min (cfg.maxTokens - (startChunk cfg st).currentTokens)
            (sentIds.length - i) ≤ cfg.maxTokens - (startChunk cfg st).currentTokens :=
          Nat.min_le_left _ _
        apply ih
        split
        · apply inv_flushChunk
          refine ⟨⟨?_, ?_, e3⟩, eid⟩ <;> dsimp only <;> omega
        · refine ⟨⟨?_, ?_, e3⟩, eid⟩ <;> dsimp only <;> omega
    · exact h

theorem inv_processSent (cfg : ChunkCfg) (sentRaw : String) {st : ChunkState}
    (h : ChunkInv cfg st) : ChunkInv cfg (processSent cfg sentRaw st) := by
  unfold processSent
  dsimp only
  split
  · exact h
  · split
    next hfit => exact inv_appendPiece cfg _ _ _ h hfit
    · split
      next hsm =>
        have h1 := inv_startChunk cfg (inv_flushChunk cfg h)
        obtain ⟨⟨e1, e2, e3⟩, eid⟩ := h1
        exact ⟨⟨by dsimp only; omega, by dsimp only; omega, e3⟩, eid⟩
      · exact inv_hardSplitLoop cfg _ _ 0 h

theorem inv_processPara (cfg : ChunkCfg) (paraRaw : String) {st : ChunkState}
    (h : ChunkInv cfg st) : ChunkInv cfg (processPara cfg paraRaw st) := by
  unfold processPara
  dsimp only
  split
  · exact h
  · split
    next hfit => exact inv_appendPiece cfg _ _ _ h hfit
    · exact foldl_preserve _ (fun s st => processSent cfg s st)
        (fun s st hst => inv_processSent cfg s hst) _ _ h

theorem inv_processPage (cfg : ChunkCfg) (pg : Nat × String) {st : ChunkState}
    (h : ChunkInv cfg st) : ChunkInv cfg (processPage cfg pg st) := by
  unfold processPage
  dsimp only
  apply inv_flushChunk
  apply foldl_preserve _ (fun para st => processPara cfg para st)
    (fun para st hst => inv_processPara cfg para hst)
  exact ⟨⟨h.1.1, h.1.2.1, h.1.2.2⟩, h.2.1, h.2.2⟩

theorem inv_chunkCore (cfg : ChunkCfg) (text : String) :
    ChunkInv cfg (((pagesOf text).foldl (fun st pg => processPage cfg pg st)
      initChunkState)) := by
  apply foldl_preserve _ (fun pg st => processPage cfg pg st)
    (fun pg st hst => inv_processPage cfg pg hst)
  refine ⟨⟨rfl, Nat.zero_le _, ?_⟩, rfl, rfl⟩
  intro c hc
  simp only [initChunkState] at hc
  cases hc

/-! ## Claim theorems -/

/-- C3 (refuting evaluation): the budget bound does not hold for the token
count of a chunk's non-overlap text.  On `"a\n\nb\n\nc"` with
`max_tokens=5` the chunker appends three one-token paragraphs (counting
3 ≤ 5) joined by uncounted `"\n\n"` separators, and emits a single chunk
with no overlap prefix (`prefixTok = 0`, so its non-overlap content is its
entire text) whose text tokenizes to 7 > 5 tokens: the guards
`current_tokens + ptok <= max_tokens` never count the joiner strings
(pipeline.py lines 215-218, 230-233), so the claimed bound on the
non-overlap content's token count is false. -/
theorem C3_content_budget_counterexample :
    (chunkCore cfgSmall "a\n\nb\n\nc").map
        (fun c => (c.prefixTok, c.contentTok, tokCount cfgSmall.enc c.text)) =
      [(0, 3, 7)] ∧
    cfgSmall.maxTokens <
      tokCount cfgSmall.enc
        (((chunkCore cfgSmall "a\n\nb\n\nc").getD 0 default).text) := by
  decide

/-- C3 (amended): the budget bound holds for the chunker's token
accounting of the non-overlap content — the sum of the token counts of
the paragraph / sentence / token-slice pieces appended after any prepended
overlap prefix, the quantity the budget guards actually bound (tracked
here as the ghost field `contentTok`) — which never exceeds `max_tokens`,
for every input text, every configuration and every tokenizer, on every
code path including single-sentence hard splits.  The token count of the
assembled chunk text can exceed `max_tokens` only by the uncounted `"\n\n"`
and `" "` joiner tokens between pieces. -/
theorem C3_chunk_content_within_budget (cfg : ChunkCfg) (text : String) :
    ∀ c ∈ chunkCore cfg text, c.contentTok ≤ cfg.maxTokens := by
  intro c hc
  exact (inv_chunkCore cfg text).1.2.2 c hc

/-- Witness for C3 at a concrete input: the single chunk produced from
`"Hi."` at default parameters has content within the 450-token budget. -/
theorem C3_chunk_content_within_budget_witness :
    (⟨"doc-0001", "Hi.", "doc", none, none, 1, 0, 3⟩ : Chunk) ∈ chunkCore cfgDemo "Hi." ∧
    (⟨"doc-0001", "Hi.", "doc", none, none, 1, 0, 3⟩ : Chunk).contentTok ≤ cfgDemo.maxTokens :=
  ⟨by decide, C3_chunk_content_within_budget cfgDemo "Hi." _ (by decide)⟩

/-- C4: the embedded chunker is a pure function of its inputs, so running
it twice on identical text with identical parameters yields identical
chunk boundaries and chunk ids (the first conjunct is definitional in the
embedding); and each chunk id is the document id followed by the
zero-padded one-based position of the chunk in emission order, i.e. a
deterministic function of `document_id` and a monotonically increasing
sequence number. -/
theorem C4_chunker_deterministic_ids (cfg : ChunkCfg) (text : String) :
    chunkTextSemantic cfg text = chunkTextSemantic cfg text ∧
    (chunkCore cfg text).map Chunk.chunkId =
      (List.range (chunkCore cfg text).length).map (fun i => mkChunkId cfg.docId (i + 1)) :=
  ⟨rfl, (inv_chunkCore cfg text).2.2⟩

/-- C2 (refuting evaluation): on the document `"ab. cd."` with
`max_tokens=5`, `overlap_tokens=2`, the chunker emits two adjacent chunks
`"ab."` and `"cd."` on the same page (no page flush between them), yet the
second does not begin with `min(overlap_tokens, token_count("ab.")) = 2`
tokens from the tail of the first: the middle branch of the sentence loop
(pipeline.py lines 236-240) overwrites the just-installed overlap prefix
with the bare sentence, so the overlap is dropped — contradicting the
function's own docstring (overlap between ALL consecutive chunks). -/
theorem C2_overlap_dropped :
    (chunkCore cfgSmall "ab. cd.").map (fun c => (c.text, c.page, c.prefixTok)) =
      [("ab.", 1, 0), ("cd.", 1, 0)] ∧
    ¬ overlapPrefixOk charEnc cfgSmall.overlapTokens
        ((chunkCore cfgSmall "ab. cd.").getD 0 default)
        ((chunkCore cfgSmall "ab. cd.").getD 1 default) := by
  decide

/-- C9 (refuting evaluation): the input `"--- page 1 ---"` (non-blank, so
it passes the upstream read guard) parses into one well-numbered empty
page, produces zero chunks, and therefore `chunk_text_semantic` raises
`IndexError` at the unconditional debug print `chunks[0]`
(pipeline.py line 283) — modelled by the `none` result — so the chunker is
not total. -/
theorem C9_chunker_raises_on_zero_chunks :
    pagesOf "--- page 1 ---" = [(1, "")] ∧
    chunkCore cfgDemo "--- page 1 ---" = [] ∧
    chunkTextSemantic cfgDemo "--- page 1 ---" = none := by
  decide

/-- C5 (refuting evaluation): for the document `"--- page 1 ---\nhola"`
the page-marker delimiter tokens are split away and never re-emitted, so
the total token count over all chunks (4) is strictly below the token
count of the document text (19): the claimed inequality fails. -/
theorem C5_token_sum_counterexample :
    ((chunkCore cfgDemo "--- page 1 ---\nhola").map
        (fun c => tokCount charEnc c.text)).sum <
      tokCount charEnc "--- page 1 ---\nhola" := by
  decide

/-- Auxiliary: prepending the empty string is the identity. -/
theorem empty_str_append (s : String) : "" ++ s = s := rfl

/-- C5 (amended): token preservation holds only after excluding what the
chunker deliberately removes — page-marker delimiter text and collapsed
inter-piece whitespace.  For a document whose text contains no page marker
and no paragraph break, equals its own strip, and fits the token budget,
the chunker emits exactly the document text as one chunk, so the sum of
chunk token counts equals (hence is at least) the document's token
count. -/
theorem C5_token_sum_single_paragraph (cfg : ChunkCfg) (text : String)
    (hpg : pageSplit text = [text])
    (hpara : paraSplit text = [text])
    (hstrip : pyStrip text = text)
    (hne : text ≠ "")
    (hfit : tokCount cfg.enc text ≤ cfg.maxTokens) :
    tokCount cfg.enc text ≤
      ((chunkCore cfg text).map (fun c => tokCount cfg.enc c.text)).sum := by
  have hpages : pagesOf text = [(1, text)] := by
    unfold pagesOf
    rw [hpg]
    dsimp only
    rw [hstrip, if_neg hne]
    rfl
  have hone : chunkCore cfg text =
      [{ chunkId := mkChunkId cfg.docId 1, text := text, documentId := cfg.docId,
         title := cfg.title, url := cfg.url, page := 1, prefixTok := 0,
         contentTok := tokCount cfg.enc text }] := by
    unfold chunkCore
    rw [hpages]
    show (processPage cfg (1, text) initChunkState).chunks = _
    unfold processPage
    rw [hpara]
    show (flushChunk cfg (processPara cfg text _)).chunks = _
    unfold processPara appendPiece startChunk flushChunk
    simp [initChunkState, hstrip, hne, hfit, empty_str_append]
  rw [hone]
  simp

/-- Witness for the amended C5 at the concrete document `"hola"` with the
default configuration: the single emitted chunk carries all 4 tokens. -/
theorem C5_token_sum_single_paragraph_witness :
    tokCount cfgDemo.enc "hola" ≤
      ((chunkCore cfgDemo "hola").map (fun c => tokCount cfgDemo.enc c.text)).sum :=
  C5_token_sum_single_paragraph cfgDemo "hola" (by decide) (by decide) (by decide)
    (by decide) (by decide)

/-! ## Retrieval lemmas -/

theorem clamp01_nonneg (x : ℚ) : 0 ≤ clamp01 x :=
  le_max_left 0 _

theorem clamp01_le_one (x : ℚ) : clamp01 x ≤ 1 :=
  max_le (by norm_num) (min_le_left 1 x)

theorem foldl_min_le (t : List ℚ) :
    ∀ a : ℚ, t.foldl min a ≤ a ∧ ∀ x ∈ t, t.foldl min a ≤ x := by
  induction t with
  | nil => intro a; exact ⟨le_refl a, by simp⟩
  | cons b t ih =>
    intro a
    refine ⟨le_trans (ih (min a b)).1 (min_le_left a b), ?_⟩
    intro x hx
    rcases List.mem_cons.mp hx with rfl | hx
    · exact le_trans (ih (min a x)).1 (min_le_right a x)
    · exact (ih (min a b)).2 x hx

theorem foldl_le_max (t : List ℚ) :
    ∀ a : ℚ, a ≤ t.foldl max a ∧ ∀ x ∈ t, x ≤ t.foldl max a := by
  induction t with
  | nil => intro a; exact ⟨le_refl a, by simp⟩
  | cons b t ih =>
    intro a
    refine ⟨le_trans (le_max_left a b) (ih (max a b)).1, ?_⟩
    intro x hx
    rcases List.mem_cons.mp hx with rfl | hx
    · exact le_trans (le_max_right a x) (ih (max a x)).1
    · exact (ih (max a b)).2 x hx

theorem bmMin_le {l : List ℚ} {x : ℚ} (hx : x ∈ l) : bmMin l ≤ x := by
  cases l with
  | nil => cases hx
  | cons h t =>
    rcases List.mem_cons.mp hx with rfl | hx
    · exact (foldl_min_le t x).1
    · exact (foldl_min_le t h).2 x hx

theorem le_bmMax {l : List ℚ} {x : ℚ} (hx : x ∈ l) : x ≤ bmMax l := by
  cases l with
  | nil => cases hx
  | cons h t =>
    rcases List.mem_cons.mp hx with rfl | hx
    · exact (foldl_le_max t x).1
    · exact (foldl_le_max t h).2 x hx

theorem foldl_min_mem (t : List ℚ) : ∀ a : ℚ, t.foldl min a ∈ a :: t := by
  induction t with
  | nil => intro a; simp
  | cons b t ih =>
    intro a
    have h := ih (min a b)
    rcases List.mem_cons.mp h with h | h
    · rcases min_choice a b with hc | hc
      · rw [List.foldl_cons, h, hc]; exact List.mem_cons_self _ _
      · rw [List.foldl_cons, h, hc]
        exact List.mem_cons_of_mem _ (List.mem_cons_self _ _)
    · exact List.mem_cons_of_mem _ (List.mem_cons_of_mem _ h)

theorem foldl_max_mem (t : List ℚ) : ∀ a : ℚ, t.foldl max a ∈ a :: t := by
  induction t with
  | nil => intro a; simp
  | cons b t ih =>
    intro a
    have h := ih (max a b)
    rcases List.mem_cons.mp h with h | h
    · rcases max_choice a b with hc | hc
      · rw [List.foldl_cons, h, hc]; exact List.mem_cons_self _ _
      · rw [List.foldl_cons, h, hc]
        exact List.mem_cons_of_mem _ (List.mem_cons_self _ _)
    · exact List.mem_cons_of_mem _ (List.mem_cons_of_mem _ h)

theorem bmMin_mem {l : List ℚ} (h : l ≠ []) : bmMin l ∈ l := by
  cases l with
  | nil => exact absurd rfl h
  | cons a t => exact foldl_min_mem t a

theorem bmMax_mem {l : List ℚ} (h : l ≠ []) : bmMax l ∈ l := by
  cases l with
  | nil => exact absurd rfl h
  | cons a t => exact foldl_max_mem t a

theorem mem_insertRowDesc {x y : Row} {l : List Row}
    (h : y ∈ insertRowDesc x l) : y = x ∨ y ∈ l := by
  induction l with
  | nil => simp [insertRowDesc] at h; exact Or.inl h
  | cons z zs ih =>
    rw [insertRowDesc] at h
    split at h
    · rcases List.mem_cons.mp h with rfl | h
      · exact Or.inl rfl
      · exact Or.inr h
    · rcases List.mem_cons.mp h with rfl | h
      · exact Or.inr (List.mem_cons_self _ _)
      · rcases ih h with h | h
        · exact Or.inl h
        · exact Or.inr (List.mem_cons_of_mem _ h)

theorem mem_sortRowsDesc {y : Row} {l : List Row}
    (h : y ∈ sortRowsDesc l) : y ∈ l := by
  induction l with
  | nil => simp [sortRowsDesc] at h
  | cons x xs ih =>
    rw [sortRowsDesc] at h
    rcases mem_insertRowDesc h with rfl | h
    · exact List.mem_cons_self _ _
    · exact List.mem_cons_of_mem _ (ih h)

theorem rowKey_le_of_rowLex {a b : Row} (h : RowLex a b) : rowKey b ≤ rowKey a := by
  rcases h with h | ⟨h, _⟩
  · exact le_of_lt h
  · exact le_of_eq h.symm

theorem pairwise_insertRowDesc {x : Row} {l : List Row}
    (hl : l.Pairwise RowLex) (hidx : ∀ y ∈ l, x.idx < y.idx) :
    (insertRowDesc x l).Pairwise RowLex := by
  induction l with
  | nil => simp [insertRowDesc]
  | cons y ys ih =>
    rw [insertRowDesc]
    obtain ⟨hy, hys⟩ := List.pairwise_cons.mp hl
    split
    next hk =>
      refine List.pairwise_cons.mpr ⟨?_, hl⟩
      intro z hz
      have hkz : rowKey z ≤ rowKey y := by
        rcases List.mem_cons.mp hz with rfl | hz
        · exact le_refl _
        · exact rowKey_le_of_rowLex (hy z hz)
      rcases lt_or_eq_of_le (le_trans hkz hk) with h | h
      · exact Or.inl h
      · exact Or.inr ⟨h.symm, hidx z hz⟩
    next hk =>
      refine List.pairwise_cons.mpr ⟨?_, ?_⟩
      · intro z hz
        rcases mem_insertRowDesc hz with rfl | hz
        · exact Or.inl (lt_of_not_le hk)
        · exact hy z hz
      · exact ih hys (fun z hz => hidx z (List.mem_cons_of_mem _ hz))

theorem perm_insertRowDesc (x : Row) (l : List Row) :
    (insertRowDesc x l).Perm (x :: l) := by
  induction l with
  | nil => exact List.Perm.refl _
  | cons y ys ih =>
    rw [insertRowDesc]
    split
    · exact List.Perm.refl _
    · exact List.Perm.trans (List.Perm.cons y ih) (List.Perm.swap x y ys)

theorem perm_sortRowsDesc (l : List Row) : (sortRowsDesc l).Perm l := by
  induction l with
  | nil => exact List.Perm.refl _
  | cons x xs ih =>
    rw [sortRowsDesc]
    exact List.Perm.trans (perm_insertRowDesc x (sortRowsDesc xs)) (List.Perm.cons x ih)

theorem pairwise_sortRowsDesc {l : List Row}
    (hidx : l.Pairwise (fun a b => a.idx < b.idx)) :
    (sortRowsDesc l).Pairwise RowLex := by
  induction l with
  | nil => simp [sortRowsDesc]
  | cons x xs ih =>
    rw [sortRowsDesc]
    obtain ⟨hx, hxs⟩ := List.pairwise_cons.mp hidx
    exact pairwise_insertRowDesc (ih hxs) (fun y hy => hx y (mem_sortRowsDesc hy))

theorem pairwise_idx_hybridRows (α : ℚ) (docs : List String) (metas : List Meta)
    (dists : List (Option ℚ)) (bmRaw : List ℚ) :
    (hybridRows α docs metas dists bmRaw).Pairwise (fun a b => a.idx < b.idx) := by
  unfold hybridRows
  rw [List.pairwise_map]
  exact List.pairwise_lt_range docs.length

theorem mem_hybridRows {α : ℚ} {docs : List String} {metas : List Meta}
    {dists : List (Option ℚ)} {bmRaw : List ℚ} {r : Row}
    (h : r ∈ hybridRows α docs metas dists bmRaw) :
    ∃ i, i < docs.length ∧ r = mkHybridRow α docs metas dists bmRaw i := by
  unfold hybridRows at h
  rcases List.mem_map.mp h with ⟨i, hi, rfl⟩
  exact ⟨i, List.mem_range.mp hi, rfl⟩

theorem mem_semanticRows {docs : List String} {metas : List Meta}
    {dists : List (Option ℚ)} {r : Row}
    (h : r ∈ semanticRows docs metas dists) :
    ∃ i, i < docs.length ∧ r = mkSemanticRow docs metas dists i := by
  unfold semanticRows at h
  rcases List.mem_map.mp h with ⟨i, hi, rfl⟩
  exact ⟨i, List.mem_range.mp hi, rfl⟩

/-- The combined score of a semantic-shape row, when present, is a clamped
similarity and hence lies in the unit interval. -/
theorem semanticRow_combined_bounds (docs : List String) (metas : List Meta)
    (dists : List (Option ℚ)) (i : Nat) {c : ℚ}
    (h : (mkSemanticRow docs metas dists i).scores.combined = some c) :
    0 ≤ c ∧ c ≤ 1 := by
  unfold mkSemanticRow at h
  dsimp only at h
  unfold semanticSim at h
  rcases hd : dists.getD i none with _ | d
  · rw [hd] at h; cases h
  · rw [hd] at h
    dsimp only at h
    cases h
    exact ⟨clamp01_nonneg _, clamp01_le_one _⟩

/-! ## Remaining claim theorems -/

/-- C6: `_norm_bm25` min-max normalizes the raw BM25 scores of the
candidate set into the unit interval, and whenever all raw scores in the
candidate set are equal — including the single-candidate case — every
normalized score is exactly 0, never 1 and never undefined. -/
theorem C6_bm25_normalization (l : List ℚ) :
    (∀ x ∈ l, 0 ≤ normBm l x ∧ normBm l x ≤ 1) ∧
    ((∀ x ∈ l, ∀ y ∈ l, x = y) → ∀ x ∈ l, normBm l x = 0) := by
  constructor
  · intro x hx
    unfold normBm
    split
    · exact ⟨le_refl 0, by norm_num⟩
    next hne =>
      have hmin := bmMin_le hx
      have hmax := le_bmMax hx
      have hlt : bmMin l < bmMax l :=
        lt_of_le_of_ne (le_trans hmin hmax) (fun h => hne h.symm)
      constructor
      · exact div_nonneg (by linarith) (by linarith)
      · rw [div_le_one (by linarith)]; linarith
  · intro hall x hx
    have h1 : bmMax l = bmMin l := by
      have hne : l ≠ [] := by
        intro h; rw [h] at hx; cases hx
      exact hall _ (bmMax_mem hne) _ (bmMin_mem hne)
    unfold normBm
    rw [if_pos h1]

/-- Witness for C6: over `[1, 3]` the normalized score of 3 is within the
unit interval; over the all-equal set `[2, 2]` it is exactly 0. -/
theorem C6_bm25_normalization_witness :
    (0 ≤ normBm [1, 3] 3 ∧ normBm [1, 3] 3 ≤ 1) ∧ normBm [2, 2] 2 = 0 :=
  ⟨(C6_bm25_normalization [1, 3]).1 3 (by simp),
   (C6_bm25_normalization [2, 2]).2 (by simp) 2 (by simp)⟩

/-- C7: every result of a `"semantic"`-mode search has a null BM25 score
and a combined score equal to its semantic score; and in every mode, every
returned combined score that is present lies in the unit interval
(a missing distance yields a null combined score, which the response model
also restricts to `[0,1]` when present). -/
theorem C7_semantic_mode_scores (α : ℚ) (q : String) (topK : Nat)
    (store : StoreResp) (bm25Raw : Option (List ℚ)) :
    (∀ rs, (searchModel α q topK "semantic" store bm25Raw).1 = Except.ok rs →
      ∀ r ∈ rs, r.scores.bm25 = none ∧ r.scores.combined = r.scores.semantic) ∧
    (∀ mode rs, (searchModel α q topK mode store bm25Raw).1 = Except.ok rs →
      ∀ r ∈ rs, ∀ c, r.scores.combined = some c → 0 ≤ c ∧ c ≤ 1) := by
  have hsem : ∀ rs, rs = (semanticRows store.docs store.metas store.dists).take topK →
      ∀ r ∈ rs, r.scores.bm25 = none ∧ r.scores.combined = r.scores.semantic := by
    rintro rs rfl r hr
    have hr2 := List.take_subset topK _ hr
    rcases mem_semanticRows hr2 with ⟨i, _, rfl⟩
    exact ⟨rfl, rfl⟩
  have hsemBound : ∀ rs, rs = (semanticRows store.docs store.metas store.dists).take topK →
      ∀ r ∈ rs, ∀ c, r.scores.combined = some c → 0 ≤ c ∧ c ≤ 1 := by
    rintro rs rfl r hr c hc
    have hr2 := List.take_subset topK _ hr
    rcases mem_semanticRows hr2 with ⟨i, _, rfl⟩
    exact semanticRow_combined_bounds _ _ _ _ hc
  constructor
  · intro rs hrs
    unfold searchModel at hrs
    split at hrs
    · cases hrs
    · split at hrs
      · cases hrs; intro r hr; cases hr
      · rw [if_pos rfl] at hrs
        cases hrs
        exact hsem _ rfl
  · intro mode rs hrs
    unfold searchModel at hrs
    split at hrs
    · cases hrs
    · split at hrs
      · cases hrs; intro r hr; cases hr
      · split at hrs
        · cases hrs
          exact hsemBound _ rfl
        · rcases bm25Raw with _ | raw
          · cases hrs
            exact hsemBound _ rfl
          · cases hrs
            intro r hr c hc
            have hr2 := mem_sortRowsDesc (List.take_subset topK _ hr)
            rcases mem_hybridRows hr2 with ⟨i, _, rfl⟩
            unfold mkHybridRow at hc
            dsimp only at hc
            cases hc
            exact ⟨clamp01_nonneg _, clamp01_le_one _⟩

/-- Witness for C7 at a concrete search: the single candidate at distance
1/2 in semantic mode yields a row with a null BM25 score, a combined score
equal to the semantic score, and any present combined value inside the
unit interval. -/
theorem C7_semantic_mode_scores_witness :
    ((mkSemanticRow ["snip"] [default] [some (1/2)] 0).scores.bm25 = none ∧
      (mkSemanticRow ["snip"] [default] [some (1/2)] 0).scores.combined =
        (mkSemanticRow ["snip"] [default] [some (1/2)] 0).scores.semantic) ∧
    (∀ c, (mkSemanticRow ["snip"] [default] [some (1/2)] 0).scores.combined = some c →
      0 ≤ c ∧ c ≤ 1) := by
  constructor
  · exact (C7_semantic_mode_scores (3/5) "q" 5
      ⟨["snip"], [default], [some (1/2)]⟩ none).1 _ rfl _ (List.mem_cons_self _ _)
  · intro c hc
    exact (C7_semantic_mode_scores (3/5) "q" 5
      ⟨["snip"], [default], [some (1/2)]⟩ none).2 "semantic" _ rfl _
      (List.mem_cons_self _ _) c hc

/-- C10: a blank query — empty or whitespace-only, the guard
`not q or not q.strip()` — is rejected immediately with
`ValueError("Empty query")` (surfaced as HTTP 400 by the endpoint, whose
`min_length=1` validation already rejects the empty string), and no
vector-store query and hence no embedder call is made: the call counter of
the model stays 0. -/
theorem C10_empty_query_rejected (α : ℚ) (q : String) (topK : Nat) (mode : String)
    (store : StoreResp) (bm25Raw : Option (List ℚ)) (h : pyBlank q = true) :
    searchModel α q topK mode store bm25Raw = (Except.error "Empty query", 0) := by
  unfold searchModel
  rw [if_pos h]

/-- Witness for C10: the whitespace-only query `" "` in hybrid mode
against a non-empty candidate store is rejected with zero store calls. -/
theorem C10_empty_query_rejected_witness :
    searchModel (3/5) " " 5 "hybrid" ⟨["snip"], [default], [some (1/2)]⟩ (some [1]) =
      (Except.error "Empty query", 0) :=
  C10_empty_query_rejected (3/5) " " 5 "hybrid" _ (some [1]) (by decide)

/-- C8 (refuting evaluation): when an output artifact for the document id
already exists, `handle_document` still performs the embed step, and its
behaviour is identical whether or not the artifact exists — there is no
skip, no statistics aggregation from the existing artifact, and no
force-reindex flag in the source. -/
theorem C8_no_skip_counterexample :
    IndexAction.embed ∈ handleDocumentActions true true ∧
    handleDocumentActions true true = handleDocumentActions true false := by
  decide

/-- C8 (amended): `handle_document` is never an idempotent no-op: on every
successfully read `DocumentExtracted` event it unconditionally re-chunks,
re-embeds and re-stores, regardless of any existing output artifact for
the document id (manual re-index separately deletes prior chunks before
regenerating). -/
theorem C8_always_reembeds (artifactExists : Bool) :
    handleDocumentActions true artifactExists =
      [IndexAction.readText, IndexAction.chunkText, IndexAction.embed,
       IndexAction.store, IndexAction.logMeta, IndexAction.publishEvent,
       IndexAction.ack] ∧
    IndexAction.embed ∈ handleDocumentActions true artifactExists := by
  cases artifactExists <;> exact ⟨rfl, by decide⟩

/-- C1: for every hybrid-mode search, each returned row is one of the
candidate rows and carries a combined score equal to
`clamp(α * semantic + (1-α) * bm25_normalized, 0, 1)` (a missing semantic
similarity is treated as 0); the returned list is the stable descending
sort by combined score truncated to `top_k`, so consecutive rows are in
strictly decreasing key order or tie-broken by the original
semantic-candidate position; the sort is a permutation of the candidate
rows (nothing is dropped or duplicated before truncation); and the default
fusion weight resolved from the environment is `0.6`. -/
theorem C1_hybrid_fusion (α : ℚ) (q : String) (docs : List String)
    (metas : List Meta) (dists : List (Option ℚ)) (bmRaw : List ℚ) (topK : Nat) :
    (∀ r ∈ (sortRowsDesc (hybridRows α docs metas dists bmRaw)).take topK,
      ∃ i, i < docs.length ∧ r = mkHybridRow α docs metas dists bmRaw i ∧
        r.scores.combined =
          some (clamp01 (α * (semanticSim dists i).getD 0 +
            (1 - α) * normBm bmRaw (bmRaw.getD i 0)))) ∧
    ((sortRowsDesc (hybridRows α docs metas dists bmRaw)).take topK).Pairwise RowLex ∧
    (sortRowsDesc (hybridRows α docs metas dists bmRaw)).Perm
      (hybridRows α docs metas dists bmRaw) ∧
    (pyBlank q = false → docs ≠ [] →
      searchModel α q topK "hybrid" ⟨docs, metas, dists⟩ (some bmRaw) =
        (Except.ok ((sortRowsDesc (hybridRows α docs metas dists bmRaw)).take topK), 1)) ∧
    hybridAlpha none = 3 / 5 := by
  refine ⟨?_, ?_, ?_, ?_, ?_⟩
  · intro r hr
    have hr2 := mem_sortRowsDesc (List.take_subset topK _ hr)
    rcases mem_hybridRows hr2 with ⟨i, hi, rfl⟩
    exact ⟨i, hi, rfl, rfl⟩
  · exact List.Pairwise.sublist (List.take_sublist _ _)
      (pairwise_sortRowsDesc (pairwise_idx_hybridRows α docs metas dists bmRaw))
  · exact perm_sortRowsDesc _
  · intro hq hdocs
    unfold searchModel
    rw [if_neg (by simp [hq])]
    dsimp only
    rw [if_neg hdocs, if_neg (by decide)]
  · show clamp01 ((6 : ℚ) / 10) = 3 / 5
    unfold clamp01
    norm_num

/-- Witness for C1 at a concrete hybrid search with one candidate: the
returned row carries the clamped fused score, and the search returns the
fused, sorted, truncated list with exactly one store call. -/
theorem C1_hybrid_fusion_witness :
    (∃ i, i < 1 ∧
      mkHybridRow (3/5) ["a"] [default] [some (1/2)] [1] 0 =
        mkHybridRow (3/5) ["a"] [default] [some (1/2)] [1] i ∧
      (mkHybridRow (3/5) ["a"] [default] [some (1/2)] [1] 0).scores.combined =
        some (clamp01 ((3/5) * ((semanticSim [some (1/2)] i).getD 0) +
          (1 - 3/5) * normBm [1] ([1].getD i 0)))) ∧
    searchModel (3/5) "appeal deadline" 2 "hybrid"
        ⟨["a"], [default], [some (1/2)]⟩ (some [1]) =
      (Except.ok ((sortRowsDesc (hybridRows (3/5) ["a"] [default]
        [some (1/2)] [1])).take 2), 1) := by
  constructor
  · exact (C1_hybrid_fusion (3/5) "appeal deadline" ["a"] [default]
      [some (1/2)] [1] 2).1 _ (List.mem_cons_self _ _)
  · exact (C1_hybrid_fusion (3/5) "appeal deadline" ["a"] [default]
      [some (1/2)] [1] 2).2.2.2.1 (by decide) (by decide)

end MarpSpec
